import Mathlib

/- Verification of the RTGL texture conversion tool (Tools/ConvertFromRME.py):
   a shallow embedding of its image pipeline (resize, ORM channel packing,
   emission composition with luminance normalization) and of the convert
   orchestrator's filesystem behaviour, with theorems checking the
   natural-language specification against it. Pixel arithmetic, done in
   float32 by the script, is modelled over the rationals; math.sqrt is a
   function parameter (instantiated with an exact rational square root at
   the perfect-square inputs the concrete statements use). -/

namespace ConvertFromRME

/-- An in-memory image: a height × width × channels grid of pixel values,
mirroring a numpy array of shape (height, width, channels); `data y x c`
is the value at row y, column x, channel c (the function is total; entries
outside the bounds are irrelevant padding). -/
structure Img (α : Type) where
  height : ℕ
  width : ℕ
  channels : ℕ
  data : ℕ → ℕ → ℕ → α

/-- The (height, width, channels) triple, as numpy's `.shape` for a rank-3
array. -/
def shapeOf {α : Type} (img : Img α) : ℕ × ℕ × ℕ :=
  (img.height, img.width, img.channels)

/-- np.clip(v, 0.0, 1.0). -/
def clip01 (q : ℚ) : ℚ := min (max q 0) 1

/-- The float→uint8 conversion `(q * 255).astype(np.uint8)` applied to one
value: integer part, wrapped to the 8-bit range. -/
def toU8 (q : ℚ) : ℕ := (⌊q * 255⌋ % 256).toNat

/-- Pixelwise uint8 form of a float image: `(img * 255.0).astype(np.uint8)`. -/
def toU8Img (img : Img ℚ) : Img ℕ :=
  ⟨img.height, img.width, img.channels, fun y x c => toU8 (img.data y x c)⟩

/-- Load-time normalization `img.astype(np.float32) / 255.0` of a stored
uint8 image; the `% 256` records that stored pixel data has uint8 dtype. -/
def normImg (img : Img ℕ) : Img ℚ :=
  ⟨img.height, img.width, img.channels,
    fun y x c => ((img.data y x c % 256 : ℕ) : ℚ) / 255⟩

/-- A resampling kernel standing for PIL's LANCZOS resampler: from the
source uint8 image and the target height and width, it gives the value at
each target position; the value is wrapped mod 256 at use sites, which is
the uint8 dtype guarantee of the library's output array. The kernel itself
is left abstract (it is library code, outside this repository). -/
def Kernel : Type := Img ℕ → ℕ → ℕ → ℕ → ℕ → ℕ → ℕ

/-- resize(float_img, new_shape): scale to uint8 via `toU8Img`, resample to
new_shape[0] rows × new_shape[1] columns with the kernel (the source swaps
width/height only to satisfy PIL's argument order; the result has
new_shape[0] rows), then scale back to [0,1] floats. -/
def resize (K : Kernel) (img : Img ℚ) (ns : ℕ × ℕ) : Img ℚ :=
  ⟨ns.1, ns.2, img.channels,
    fun y x c => ((K (toU8Img img) ns.1 ns.2 y x c % 256 : ℕ) : ℚ) / 255⟩

/-- The script's conversion configuration constants, reified as a record:
OVERWRITE_ORM, ROUGHNESS_BIAS, ROUGHNESS_MULT, METALLIC_BIAS,
METALLIC_MULT, OVERWRITE_EMIS, EMIS_NORMALIZE_TO_ONE. -/
structure ConvParams where
  overwriteORM : Bool
  roughnessBias : ℚ
  roughnessMult : ℚ
  metallicBias : ℚ
  metallicMult : ℚ
  overwriteEmis : Bool
  emisNormalizeToOne : Bool

/-- calculate_luminance at one pixel:
0.2126 * c0 + 0.7152 * c1 + 0.0722 * c2. -/
def luminance (img : Img ℚ) (y x : ℕ) : ℚ :=
  2126/10000 * img.data y x 0 + 7152/10000 * img.data y x 1
    + 722/10000 * img.data y x 2

/-- The luminances of one pixel row (columns 0..width-1). -/
def rowLums (img : Img ℚ) (y : ℕ) : List ℚ :=
  (List.range img.width).map (fun x => luminance img y x)

/-- The luminances of all pixels of the image. -/
def pixLums (img : Img ℚ) : List ℚ :=
  (List.range img.height).flatMap (rowLums img)

/-- lum.max() over all pixels (0 for an empty image; the code only
consults it through the strict test `0 < maxLum`, where this default
agrees with numpy's max on every image the branch can act on). -/
def maxLum (img : Img ℚ) : ℚ := (pixLums img).foldr max 0

/-- The ORM channel packing of convert: a 4-channel image with channel 0
and 3 constant 1.0, channel 1 = clip(bias_r + mult_r * rme ch 0), channel
2 = clip(bias_m + mult_m * rme ch 1); `none` models the IndexError raised
when the source has fewer than 2 channels (the spec's ChannelCountError). -/
def pack (rme : Img ℚ) (rb rm mb mm : ℚ) : Option (Img ℚ) :=
  if rme.channels < 2 then none else
  some ⟨rme.height, rme.width, 4, fun y x c =>
    if c = 0 then 1
    else if c = 1 then clip01 (rb + rm * rme.data y x 0)
    else if c = 2 then clip01 (mb + mm * rme.data y x 1)
    else if c = 3 then 1 else 0⟩

/-- Which side, if any, the resolution reconciliation resampled. -/
inductive ResizeAction where
  | noResize : ResizeAction
  | resizedRme (ns : ℕ × ℕ) : ResizeAction
  | resizedAlbedo (ns : ℕ × ℕ) : ResizeAction
deriving DecidableEq

/-- The resolution reconciliation of convert's emission branch: if the two
full shapes (numpy tuples, channels included) are equal, no resize;
otherwise the side of strictly smaller pixel area is resized to the other
side's height and width, and on an exact area tie the albedo is resized to
the rme's height and width. Returns the two reconciled images, the chosen
newsize, and which side was resampled. -/
def reconcile (K : Kernel) (albedo rme : Img ℚ) :
    Img ℚ × Img ℚ × (ℕ × ℕ) × ResizeAction :=
  if shapeOf albedo = shapeOf rme then
    (albedo, rme, (albedo.height, albedo.width), ResizeAction.noResize)
  else
    if albedo.height * albedo.width > rme.height * rme.width then
      (albedo, resize K rme (albedo.height, albedo.width),
        (albedo.height, albedo.width),
        ResizeAction.resizedRme (albedo.height, albedo.width))
    else
      (resize K albedo (rme.height, rme.width), rme,
        (rme.height, rme.width),
        ResizeAction.resizedAlbedo (rme.height, rme.width))

/-- The emission composition: reconcile resolutions, then build a
4-channel image whose channels 0-2 are albedo channel times the clipped
rme channel 2, and whose channel 3 is 0 for now (the code sets it to 1.0
only after the optional normalization; see `setAlphaOne`). `none` models
the IndexError raised when either reconciled side has fewer than 3
channels (the spec's ChannelCountError); resizing preserves channel
count, so this is equivalent to the same test on the inputs. -/
def composeEmis (K : Kernel) (albedo rme : Img ℚ) : Option (Img ℚ) :=
  if (reconcile K albedo rme).1.channels < 3 ∨
      (reconcile K albedo rme).2.1.channels < 3 then none
  else some ⟨(reconcile K albedo rme).2.2.1.1, (reconcile K albedo rme).2.2.1.2, 4,
    fun y x c =>
      if c < 3 then (reconcile K albedo rme).1.data y x c *
        clip01 ((reconcile K albedo rme).2.1.data y x 2) else 0⟩

/-- The optional emission normalization exactly as the code computes it:
with m = lum.max() and newmax = sqrt(m / 0.1), when m > 0 replace the
whole array by clip(emis * newmax / m, 0, 1); otherwise leave it
unchanged. `sq` stands for math.sqrt. -/
def normalizePass (sq : ℚ → ℚ) (img : Img ℚ) : Img ℚ :=
  if 0 < maxLum img then
    ⟨img.height, img.width, img.channels, fun y x c =>
      clip01 (img.data y x c * sq (maxLum img / (1/10)) / maxLum img)⟩
  else img

/-- The normalization step as the specification words it: multiply the
composed channels by scale = sqrt(maxLuminance / 0.1) and clamp to [0,1].
Stated only to be compared against `normalizePass`, the code's
computation. -/
def normalizePassSpec (sq : ℚ → ℚ) (img : Img ℚ) : Img ℚ :=
  if 0 < maxLum img then
    ⟨img.height, img.width, img.channels, fun y x c =>
      clip01 (img.data y x c * sq (maxLum img / (1/10)))⟩
  else img

/-- emis[:, :, 3] = 1.0 (run after the optional normalization). -/
def setAlphaOne (img : Img ℚ) : Img ℚ :=
  ⟨img.height, img.width, img.channels,
    fun y x c => if c = 3 then 1 else img.data y x c⟩

/-- math.sqrt at the inputs the concrete statements below use, where the
IEEE square root is exact: sqrt 4 = 2 and sqrt (1/4) = 1/2. The general
theorems about `normalizePass` instead take the sqrt function as a
parameter together with the defining properties they need of it. -/
def sqrtVals (q : ℚ) : ℚ := if q = 4 then 2 else if q = 1/4 then 1/2 else 0

/- ---------------------------------------------------------------------
   The convert orchestrator: filesystem model, events and messages.
   --------------------------------------------------------------------- -/

/-- A filesystem state: each path may hold a stored (uint8) image. -/
def FS : Type := String → Option (Img ℕ)

/-- os.path.exists. -/
def fsExists (fs : FS) (p : String) : Bool := (fs p).isSome

/-- One filesystem side effect of convert: os.remove or imageio.imsave. -/
inductive FsEvent where
  | remove (p : String) : FsEvent
  | write (p : String) (img : Img ℕ) : FsEvent

/-- The messages convert prints: the skip notice for an existing result
file, and the warning that without an albedo no emission file will be
produced. -/
inductive Msg where
  | skipExists (p : String) : Msg
  | noAlbedo : Msg
deriving DecidableEq

/-- The exceptions a single conversion can raise: the rme file missing at
imread (the spec's MissingInputError), or an image with too few channels
(the spec's ChannelCountError). -/
inductive ConvErr where
  | missingInput : ConvErr
  | channelCount : ConvErr
deriving DecidableEq

/-- os.remove p. -/
def fsRemove (fs : FS) (p : String) : FS :=
  fun q => if q = p then none else fs q

/-- imageio.imsave p img. -/
def fsWrite (fs : FS) (p : String) (img : Img ℕ) : FS :=
  fun q => if q = p then some img else fs q

/-- Replay a list of filesystem events onto a state. -/
def applyEvents (fs : FS) (evs : List FsEvent) : FS :=
  evs.foldl (fun f e =>
    match e with
    | FsEvent.remove p => fsRemove f p
    | FsEvent.write p img => fsWrite f p img) fs

/-- The observable result of one convert call: the filesystem side
effects in order, the printed messages in order, and the exception, if
one was raised (events and messages before the exception still happened). -/
structure ConvResult where
  events : List FsEvent
  messages : List Msg
  error : Option ConvErr

/-- np.zeros((h, w, 4), dtype=np.uint8): the zero-filled 4-channel
placeholder that stands in for a missing albedo. -/
def zeroImgU8 (h w : ℕ) : Img ℕ := ⟨h, w, 4, fun _ _ _ => 0⟩

/-- The albedo load of convert: read the file when the emission output is
still due (the existence check has already passed then), else the
zero-filled placeholder with the rme's height and width. -/
def loadAlbedo (fs : FS) (pA : String) (emisOk : Bool) (rmeU8 : Img ℕ) : Img ℕ :=
  if emisOk then (fs pA).getD (zeroImgU8 rmeU8.height rmeU8.width)
  else zeroImgU8 rmeU8.height rmeU8.width

/-- The result-target policy of convert for one output path: if the
target exists it is either removed (overwrite on) or the output is marked
skipped with a notice (overwrite off). Returns (output still due, events,
messages). -/
def targetCheck (fs : FS) (p : String) (overwrite : Bool) :
    Bool × List FsEvent × List Msg :=
  if fsExists fs p then
    if overwrite then (true, [FsEvent.remove p], [])
    else (false, [], [Msg.skipExists p])
  else (true, [], [])

/-- The convert orchestrator, following the source line by line: check
the two result targets, degrade to no-emission when the albedo path does
not exist (with a warning), return early when both outputs are skipped,
load and normalize the inputs (missing rme is an exception), then run the
channel packing and the emission composition (optionally normalized, then
alpha set to 1) and record the writes. `K` is the resampling kernel and
`sq` is math.sqrt. -/
def convert (K : Kernel) (sq : ℚ → ℚ) (P : ConvParams) (fs : FS)
    (pA pR pO pE : String) : ConvResult :=
  let co := targetCheck fs pO P.overwriteORM
  let ce := targetCheck fs pE P.overwriteEmis
  let albedoMissing := !(fsExists fs pA)
  let ormOk := co.1
  let emisOk := ce.1 && !albedoMissing
  let evs0 := co.2.1 ++ ce.2.1
  let msgs := co.2.2 ++ ce.2.2 ++ (if albedoMissing then [Msg.noAlbedo] else [])
  if !ormOk && !emisOk then ⟨evs0, msgs, none⟩
  else
    match fs pR with
    | none => ⟨evs0, msgs, some ConvErr.missingInput⟩
    | some rmeU8 =>
      let rme := normImg rmeU8
      let albedo := normImg (loadAlbedo fs pA emisOk rmeU8)
      let ormStep : List FsEvent × Option ConvErr :=
        if ormOk then
          match pack rme P.roughnessBias P.roughnessMult
              P.metallicBias P.metallicMult with
          | none => ([], some ConvErr.channelCount)
          | some orm => ([FsEvent.write pO (toU8Img orm)], none)
        else ([], none)
      match ormStep.2 with
      | some e => ⟨evs0 ++ ormStep.1, msgs, some e⟩
      | none =>
        if emisOk then
          match composeEmis K albedo rme with
          | none => ⟨evs0 ++ ormStep.1, msgs, some ConvErr.channelCount⟩
          | some emis0 =>
            let emis1 := if P.emisNormalizeToOne then normalizePass sq emis0
              else emis0
            ⟨evs0 ++ ormStep.1 ++ [FsEvent.write pE (toU8Img (setAlphaOne emis1))],
              msgs, none⟩
        else ⟨evs0 ++ ormStep.1, msgs, none⟩

/-- The path a filesystem event touches. -/
def eventPath : FsEvent → String
  | FsEvent.remove p => p
  | FsEvent.write p _ => p

/-- All pixel values of the image (inside its bounds) lie in [0,1]. -/
def InUnit (img : Img ℚ) : Prop :=
  ∀ y < img.height, ∀ x < img.width, ∀ c : ℕ,
    0 ≤ img.data y x c ∧ img.data y x c ≤ 1

/- ---------------------------------------------------------------------
   Concrete fixtures for the closed statements.
   --------------------------------------------------------------------- -/

/-- A trivial resampling kernel (the shape-level statements hold for any
kernel; this one is used to instantiate them). -/
def trivK : Kernel := fun _ _ _ _ _ _ => 0

/-- A constant image of the given shape. -/
def imgConst (h w c : ℕ) (v : ℚ) : Img ℚ := ⟨h, w, c, fun _ _ _ => v⟩

/-- A 1×1 composed emission image with RGB 0.025 each (luminance 0.025)
and alpha channel 0, as the compose step leaves it before normalization. -/
def img40 : Img ℚ := ⟨1, 1, 4, fun _ _ c => if c < 3 then 1/40 else 0⟩

/-- A 1×1 all-white albedo (three channels of 1.0 = 255/255). -/
def albC1 : Img ℚ := imgConst 1 1 3 1

/-- A 1×1 rme whose channels are 0.4 = 102/255. -/
def rmeC1 : Img ℚ := imgConst 1 1 3 (2/5)

/-- A 100×50 3-channel albedo. -/
def alb100 : Img ℚ := imgConst 100 50 3 1

/-- A 50×100 3-channel rme: same pixel area as `alb100`, swapped aspect. -/
def rme50 : Img ℚ := imgConst 50 100 3 1

/-- A 1×1 albedo with an alpha channel (4 channels). -/
def alb11c4 : Img ℚ := imgConst 1 1 4 1

/-- A 1×1 rme with 3 channels: same height and width as `alb11c4` but a
different full numpy shape. -/
def rme11c3 : Img ℚ := imgConst 1 1 3 1

/-- A 2×2 3-channel albedo (strictly larger area than a 1×1 rme). -/
def alb22 : Img ℚ := imgConst 2 2 3 1

/-- A stored 1×1 3-channel rme file (uint8 value 102 everywhere). -/
def rmeU8w : Img ℕ := ⟨1, 1, 3, fun _ _ _ => 102⟩

/-- A filesystem holding only the rme input. -/
def fsMissingAlb : FS := fun p => if p = "t_rme.png" then some rmeU8w else none

/-- A filesystem holding only an already-present ORM result. -/
def fsOrmOnly : FS := fun p => if p = "t_orm.png" then some (zeroImgU8 1 1) else none

/-- A filesystem holding an already-present ORM result and the rme input. -/
def fsOrmRme : FS := fun p =>
  if p = "t_orm.png" then some (zeroImgU8 1 1)
  else if p = "t_rme.png" then some rmeU8w else none

/-- The script's shipped configuration (all overwrite flags off,
identity bias/mult, no emission normalization). -/
def pDefault : ConvParams := ⟨false, 0, 1, 0, 1, false, false⟩

/-- The shipped configuration with OVERWRITE_ORM switched on. -/
def pOverwrite : ConvParams := ⟨true, 0, 1, 0, 1, false, false⟩

/- ---------------------------------------------------------------------
   Helper lemmas.
   --------------------------------------------------------------------- -/

theorem clip01_nonneg (q : ℚ) : 0 ≤ clip01 q :=
  le_min (le_max_right q 0) zero_le_one

theorem clip01_le_one (q : ℚ) : clip01 q ≤ 1 := min_le_right _ _

theorem clip01_eq_self (q : ℚ) (h0 : 0 ≤ q) (h1 : q ≤ 1) : clip01 q = q := by
  unfold clip01
  rw [max_eq_left h0, min_eq_left h1]

theorem u8q_nonneg (n : ℕ) : 0 ≤ ((n % 256 : ℕ) : ℚ) / 255 :=
  div_nonneg (Nat.cast_nonneg _) (by norm_num)

theorem u8q_le_one (n : ℕ) : ((n % 256 : ℕ) : ℚ) / 255 ≤ 1 := by
  rw [div_le_one (by norm_num : (0:ℚ) < 255)]
  have h : n % 256 ≤ 255 := Nat.le_of_lt_succ (Nat.mod_lt _ (by norm_num))
  exact_mod_cast h

theorem resize_inUnit (K : Kernel) (img : Img ℚ) (ns : ℕ × ℕ) (y x c : ℕ) :
    0 ≤ (resize K img ns).data y x c ∧ (resize K img ns).data y x c ≤ 1 :=
  ⟨u8q_nonneg _, u8q_le_one _⟩

theorem normImg_inUnit (img : Img ℕ) (y x c : ℕ) :
    0 ≤ (normImg img).data y x c ∧ (normImg img).data y x c ≤ 1 :=
  ⟨u8q_nonneg _, u8q_le_one _⟩

theorem reconcile_fst_channels (K : Kernel) (albedo rme : Img ℚ) :
    (reconcile K albedo rme).1.channels = albedo.channels := by
  unfold reconcile
  split
  · rfl
  · split <;> rfl

theorem reconcile_snd_channels (K : Kernel) (albedo rme : Img ℚ) :
    (reconcile K albedo rme).2.1.channels = rme.channels := by
  unfold reconcile
  split
  · rfl
  · split <;> rfl

theorem reconcile_fst_inUnit (K : Kernel) (albedo rme : Img ℚ)
    (hA : InUnit albedo) :
    ∀ y < (reconcile K albedo rme).2.2.1.1, ∀ x < (reconcile K albedo rme).2.2.1.2,
      ∀ c : ℕ, 0 ≤ (reconcile K albedo rme).1.data y x c ∧
        (reconcile K albedo rme).1.data y x c ≤ 1 := by
  unfold reconcile
  split
  · exact fun y hy x hx c => hA y hy x hx c
  · split
    · exact fun y hy x hx c => hA y hy x hx c
    · exact fun y _ x _ c => resize_inUnit K albedo _ y x c

theorem foldr_max_map_mul (k : ℚ) (hk : 0 ≤ k) (l : List ℚ) :
    (l.map (fun v => k * v)).foldr max 0 = k * l.foldr max 0 := by
  induction l with
  | nil => simp
  | cons a t ih =>
      rw [List.map_cons, List.foldr_cons, List.foldr_cons, ih,
        mul_max_of_nonneg a _ hk]

theorem pixLums_smul (img img2 : Img ℚ) (k : ℚ)
    (hh : img2.height = img.height) (hw : img2.width = img.width)
    (hd : ∀ y < img.height, ∀ x < img.width, ∀ c < 3,
      img2.data y x c = k * img.data y x c) :
    pixLums img2 = (pixLums img).map (fun v => k * v) := by
  unfold pixLums
  rw [hh, List.map_flatMap]
  apply List.flatMap_congr
  intro y hy
  have hy' : y < img.height := List.mem_range.mp hy
  unfold rowLums
  rw [hw, List.map_map]
  apply List.map_congr_left
  intro x hx
  have hx' : x < img.width := List.mem_range.mp hx
  show luminance img2 y x = k * luminance img y x
  unfold luminance
  rw [hd y hy' x hx' 0 (by norm_num), hd y hy' x hx' 1 (by norm_num),
    hd y hy' x hx' 2 (by norm_num)]
  ring

theorem maxLum_smul (img img2 : Img ℚ) (k : ℚ) (hk : 0 ≤ k)
    (hh : img2.height = img.height) (hw : img2.width = img.width)
    (hd : ∀ y < img.height, ∀ x < img.width, ∀ c < 3,
      img2.data y x c = k * img.data y x c) :
    maxLum img2 = k * maxLum img := by
  unfold maxLum
  rw [pixLums_smul img img2 k hh hw hd, foldr_max_map_mul k hk]

theorem targetCheck_absent (fs : FS) (p : String) (ow : Bool)
    (h : fsExists fs p = false) : targetCheck fs p ow = (true, [], []) := by
  simp [targetCheck, h]

theorem targetCheck_skip (fs : FS) (p : String)
    (h : fsExists fs p = true) :
    targetCheck fs p false = (false, [], [Msg.skipExists p]) := by
  simp [targetCheck, h]

theorem targetCheck_overwrite (fs : FS) (p : String)
    (h : fsExists fs p = true) :
    targetCheck fs p true = (true, [FsEvent.remove p], []) := by
  simp [targetCheck, h]

theorem targetCheck_no_write (fs : FS) (p : String) (ow : Bool) :
    ∀ q img, FsEvent.write q img ∉ (targetCheck fs p ow).2.1 := by
  intro q img
  unfold targetCheck
  split
  · split <;> simp
  · simp

theorem targetCheck_paths (fs : FS) (p : String) (ow : Bool) :
    ∀ e ∈ (targetCheck fs p ow).2.1, eventPath e = p := by
  intro e he
  unfold targetCheck at he
  split at he
  · split at he
    · rcases List.mem_singleton.mp he with rfl
      rfl
    · simp at he
  · simp at he

theorem applyEvents_untouched (evs : List FsEvent) (fs : FS) (p : String)
    (h : ∀ e ∈ evs, eventPath e ≠ p) : applyEvents fs evs p = fs p := by
  induction evs generalizing fs with
  | nil => rfl
  | cons e t ih =>
      have he : eventPath e ≠ p := h e (List.mem_cons_self e t)
      have ht : ∀ x ∈ t, eventPath x ≠ p := fun x hx => h x (List.mem_cons_of_mem e hx)
      cases e with
      | remove q =>
          show applyEvents (fsRemove fs q) t p = fs p
          rw [ih (fsRemove fs q) ht]
          unfold fsRemove
          rw [if_neg (fun hpq => he hpq.symm)]
      | write q img =>
          show applyEvents (fsWrite fs q img) t p = fs p
          rw [ih (fsWrite fs q img) ht]
          unfold fsWrite
          rw [if_neg (fun hpq => he hpq.symm)]

/- ---------------------------------------------------------------------
   Claim theorems.
   --------------------------------------------------------------------- -/

/-- C10: resize round-trips pixel data through 8-bit integers (scale by
255, truncate to uint8, resample to a uint8 array, divide by 255), so
every channel value of its output lies in [0,1], for every input image —
including one whose values lie outside [0,1] — and for every resampling
kernel; no interpolation ringing can survive in the output. -/
theorem resize_output_in_unit (K : Kernel) (img : Img ℚ) (ns : ℕ × ℕ)
    (y x c : ℕ) :
    0 ≤ (resize K img ns).data y x c ∧ (resize K img ns).data y x c ≤ 1 :=
  resize_inUnit K img ns y x c

/-- C9: an input with fewer channels than a transform requires makes the
transform signal the ChannelCountError: the channel packing yields no
result when the rme image has fewer than 2 channels, and the emission
composition yields no result when the albedo image has fewer than 3
channels. -/
theorem channel_count_errors (K : Kernel) (rme albedo rme2 : Img ℚ)
    (rb rm mb mm : ℚ) (h1 : rme.channels < 2) (h2 : albedo.channels < 3) :
    pack rme rb rm mb mm = none ∧ composeEmis K albedo rme2 = none := by
  constructor
  · unfold pack
    rw [if_pos h1]
  · unfold composeEmis
    rw [if_pos (Or.inl ((reconcile_fst_channels K albedo rme2).symm ▸ h2))]

/-- C9 witness: a 1-channel rme and a 2-channel albedo trigger both
channel-count errors. -/
theorem channel_count_errors_witness :
    pack (imgConst 1 1 1 0) 0 1 0 1 = none ∧
    composeEmis trivK (imgConst 1 1 2 0) (imgConst 1 1 3 0) = none :=
  channel_count_errors trivK (imgConst 1 1 1 0) (imgConst 1 1 2 0)
    (imgConst 1 1 3 0) 0 1 0 1 (by decide) (by decide)

/-- C4: channel packing of an rme image with at least 2 channels and
values in [0,1] under the identity parameters (bias 0, mult 1) gives a
4-channel image of the same height and width whose channel 1 equals rme
channel 0 exactly, channel 2 equals rme channel 1 exactly, and channels 0
and 3 are uniformly 1; and for arbitrary parameters channel 1 is
clip(roughnessBias + roughnessMult * rme channel 0, 0, 1) and channel 2
is clip(metallicBias + metallicMult * rme channel 1, 0, 1). -/
theorem pack_identity (rme : Img ℚ) (hc : 2 ≤ rme.channels)
    (hb : ∀ y < rme.height, ∀ x < rme.width, ∀ c < 2,
      0 ≤ rme.data y x c ∧ rme.data y x c ≤ 1) :
    (∃ orm, pack rme 0 1 0 1 = some orm ∧
      orm.height = rme.height ∧ orm.width = rme.width ∧ orm.channels = 4 ∧
      (∀ y < rme.height, ∀ x < rme.width,
        orm.data y x 0 = 1 ∧ orm.data y x 1 = rme.data y x 0 ∧
        orm.data y x 2 = rme.data y x 1 ∧ orm.data y x 3 = 1)) ∧
    (∀ rb rm mb mm : ℚ, ∃ orm2, pack rme rb rm mb mm = some orm2 ∧
      ∀ y x : ℕ, orm2.data y x 1 = clip01 (rb + rm * rme.data y x 0) ∧
        orm2.data y x 2 = clip01 (mb + mm * rme.data y x 1)) := by
  have hlt : ¬ rme.channels < 2 := not_lt.mpr hc
  have hp : ∀ rb rm mb mm : ℚ, pack rme rb rm mb mm =
      some ⟨rme.height, rme.width, 4, fun y x c =>
        if c = 0 then 1
        else if c = 1 then clip01 (rb + rm * rme.data y x 0)
        else if c = 2 then clip01 (mb + mm * rme.data y x 1)
        else if c = 3 then 1 else 0⟩ := by
    intro rb rm mb mm
    unfold pack
    rw [if_neg hlt]
  constructor
  · refine ⟨_, hp 0 1 0 1, rfl, rfl, rfl, ?_⟩
    intro y hy x hx
    obtain ⟨h00, h01⟩ := hb y hy x hx 0 (by norm_num)
    obtain ⟨h10, h11⟩ := hb y hy x hx 1 (by norm_num)
    refine ⟨rfl, ?_, ?_, rfl⟩
    · show clip01 (0 + 1 * rme.data y x 0) = rme.data y x 0
      rw [zero_add, one_mul, clip01_eq_self _ h00 h01]
    · show clip01 (0 + 1 * rme.data y x 1) = rme.data y x 1
      rw [zero_add, one_mul, clip01_eq_self _ h10 h11]
  · intro rb rm mb mm
    exact ⟨_, hp rb rm mb mm, fun y x => ⟨rfl, rfl⟩⟩

/-- C4 witness: the identity packing of a concrete all-ones 1×1
3-channel rme. -/
theorem pack_identity_witness :
    (∃ orm, pack rme11c3 0 1 0 1 = some orm ∧
      orm.height = rme11c3.height ∧ orm.width = rme11c3.width ∧
      orm.channels = 4 ∧
      (∀ y < rme11c3.height, ∀ x < rme11c3.width,
        orm.data y x 0 = 1 ∧ orm.data y x 1 = rme11c3.data y x 0 ∧
        orm.data y x 2 = rme11c3.data y x 1 ∧ orm.data y x 3 = 1)) ∧
    (∀ rb rm mb mm : ℚ, ∃ orm2, pack rme11c3 rb rm mb mm = some orm2 ∧
      ∀ y x : ℕ, orm2.data y x 1 = clip01 (rb + rm * rme11c3.data y x 0) ∧
        orm2.data y x 2 = clip01 (mb + mm * rme11c3.data y x 1)) :=
  pack_identity rme11c3 (by decide)
    (fun _ _ _ _ _ _ => ⟨zero_le_one, le_refl 1⟩)

/-- C2 (amended): composing an albedo and an rme of equal pixel area but
different shapes resizes the albedo to the rme's exact height and width —
not the rme to the albedo's — so the emission output takes the rme's
dimensions (50×100×4 for a 100×50 albedo with a 50×100 rme). -/
theorem equal_area_resize_direction (K : Kernel) (albedo rme : Img ℚ)
    (harea : albedo.height * albedo.width = rme.height * rme.width)
    (hshape : shapeOf albedo ≠ shapeOf rme)
    (hca : 3 ≤ albedo.channels) (hcr : 3 ≤ rme.channels) :
    (reconcile K albedo rme).2.2.2
      = ResizeAction.resizedAlbedo (rme.height, rme.width) ∧
    (reconcile K albedo rme).1 = resize K albedo (rme.height, rme.width) ∧
    (reconcile K albedo rme).2.1 = rme ∧
    (composeEmis K albedo rme).map shapeOf
      = some (rme.height, rme.width, 4) := by
  have hng : ¬ albedo.height * albedo.width > rme.height * rme.width := by
    rw [harea]
    exact lt_irrefl _
  have hrec : reconcile K albedo rme
      = (resize K albedo (rme.height, rme.width), rme,
        (rme.height, rme.width),
        ResizeAction.resizedAlbedo (rme.height, rme.width)) := by
    unfold reconcile
    rw [if_neg hshape, if_neg hng]
  refine ⟨by rw [hrec], by rw [hrec], by rw [hrec], ?_⟩
  unfold composeEmis
  rw [hrec, if_neg (fun h => h.elim
    (fun h1 => absurd h1 (not_lt.mpr hca))
    (fun h2 => absurd h2 (not_lt.mpr hcr)))]
  rfl

/-- C2 witness: the amended tie-break at the 100×50 albedo and 50×100
rme of the claim. -/
theorem equal_area_resize_direction_witness :
    (reconcile trivK alb100 rme50).2.2.2
      = ResizeAction.resizedAlbedo (rme50.height, rme50.width) ∧
    (reconcile trivK alb100 rme50).1
      = resize trivK alb100 (rme50.height, rme50.width) ∧
    (reconcile trivK alb100 rme50).2.1 = rme50 ∧
    (composeEmis trivK alb100 rme50).map shapeOf
      = some (rme50.height, rme50.width, 4) :=
  equal_area_resize_direction trivK alb100 rme50 (by decide) (by decide)
    (by decide) (by decide)

/-- C2 counterexample: with the claim's 100×50 albedo and 50×100 rme the
composed emission output has the rme's shape 50×100×4, not the albedo's
100×50×4 as the claim states. -/
theorem equal_area_resize_direction_counterexample :
    (composeEmis trivK alb100 rme50).map shapeOf = some (50, 100, 4) ∧
    (composeEmis trivK alb100 rme50).map shapeOf ≠ some (100, 50, 4) := by
  have hng : ¬ alb100.height * alb100.width > rme50.height * rme50.width := by
    decide
  have hshape : shapeOf alb100 ≠ shapeOf rme50 := by decide
  have hrec : reconcile trivK alb100 rme50
      = (resize trivK alb100 (rme50.height, rme50.width), rme50,
        (rme50.height, rme50.width),
        ResizeAction.resizedAlbedo (rme50.height, rme50.width)) := by
    unfold reconcile
    rw [if_neg hshape, if_neg hng]
  have hmain : (composeEmis trivK alb100 rme50).map shapeOf
      = some (50, 100, 4) := by
    unfold composeEmis
    rw [hrec, if_neg (by decide :
      ¬((resize trivK alb100 (rme50.height, rme50.width)).channels < 3 ∨
        rme50.channels < 3))]
    rfl
  exact ⟨hmain, by rw [hmain]; decide⟩

/-- C3 (amended): if albedo and rme share the identical full numpy shape
(height, width and channel count) no resize occurs; when the pixel areas
differ strictly, the smaller-area image is resampled to the larger-area
image's exact height and width and the emission output takes the
larger-area image's dimensions; but when height and width agree while the
channel counts differ, the albedo is resampled (to the unchanged height
and width) even though height×width are identical. -/
theorem resolution_reconciliation_rule (K : Kernel) (albedo rme : Img ℚ) :
    (shapeOf albedo = shapeOf rme →
      reconcile K albedo rme
        = (albedo, rme, (albedo.height, albedo.width), ResizeAction.noResize)) ∧
    (rme.height * rme.width < albedo.height * albedo.width →
      (reconcile K albedo rme).2.2.2
        = ResizeAction.resizedRme (albedo.height, albedo.width) ∧
      (reconcile K albedo rme).1 = albedo ∧
      (reconcile K albedo rme).2.1 = resize K rme (albedo.height, albedo.width) ∧
      (3 ≤ albedo.channels → 3 ≤ rme.channels →
        (composeEmis K albedo rme).map shapeOf
          = some (albedo.height, albedo.width, 4))) ∧
    (albedo.height * albedo.width < rme.height * rme.width →
      (reconcile K albedo rme).2.2.2
        = ResizeAction.resizedAlbedo (rme.height, rme.width) ∧
      (reconcile K albedo rme).1 = resize K albedo (rme.height, rme.width) ∧
      (reconcile K albedo rme).2.1 = rme ∧
      (3 ≤ albedo.channels → 3 ≤ rme.channels →
        (composeEmis K albedo rme).map shapeOf
          = some (rme.height, rme.width, 4))) ∧
    (albedo.height = rme.height → albedo.width = rme.width →
      albedo.channels ≠ rme.channels →
      (reconcile K albedo rme).2.2.2
        = ResizeAction.resizedAlbedo (rme.height, rme.width)) := by
  refine ⟨?_, ?_, ?_, ?_⟩
  · intro h
    unfold reconcile
    rw [if_pos h]
  · intro hlt
    have hshape : shapeOf albedo ≠ shapeOf rme := by
      intro h
      have h1 : albedo.height = rme.height := congrArg Prod.fst h
      have h2 : albedo.width = rme.width := congrArg (fun t => t.2.1) h
      rw [h1, h2] at hlt
      exact lt_irrefl _ hlt
    have hrec : reconcile K albedo rme
        = (albedo, resize K rme (albedo.height, albedo.width),
          (albedo.height, albedo.width),
          ResizeAction.resizedRme (albedo.height, albedo.width)) := by
      unfold reconcile
      rw [if_neg hshape, if_pos hlt]
    refine ⟨by rw [hrec], by rw [hrec], by rw [hrec], ?_⟩
    intro hca hcr
    unfold composeEmis
    rw [hrec, if_neg (fun h => h.elim
      (fun h1 => absurd h1 (not_lt.mpr hca))
      (fun h2 => absurd h2 (not_lt.mpr hcr)))]
    rfl
  · intro hlt
    have hshape : shapeOf albedo ≠ shapeOf rme := by
      intro h
      have h1 : albedo.height = rme.height := congrArg Prod.fst h
      have h2 : albedo.width = rme.width := congrArg (fun t => t.2.1) h
      rw [h1, h2] at hlt
      exact lt_irrefl _ hlt
    have hng : ¬ albedo.height * albedo.width > rme.height * rme.width :=
      lt_asymm hlt
    have hrec : reconcile K albedo rme
        = (resize K albedo (rme.height, rme.width), rme,
          (rme.height, rme.width),
          ResizeAction.resizedAlbedo (rme.height, rme.width)) := by
      unfold reconcile
      rw [if_neg hshape, if_neg hng]
    refine ⟨by rw [hrec], by rw [hrec], by rw [hrec], ?_⟩
    intro hca hcr
    unfold composeEmis
    rw [hrec, if_neg (fun h => h.elim
      (fun h1 => absurd h1 (not_lt.mpr hca))
      (fun h2 => absurd h2 (not_lt.mpr hcr)))]
    rfl
  · intro hh hw hc
    have hshape : shapeOf albedo ≠ shapeOf rme := by
      intro h
      exact hc (congrArg (fun t => t.2.2) h)
    have hng : ¬ albedo.height * albedo.width > rme.height * rme.width := by
      rw [hh, hw]
      exact lt_irrefl _
    unfold reconcile
    rw [if_neg hshape, if_neg hng]

/-- C3 witness: a 2×2 albedo with a 1×1 rme exercises the strict-area
rule: the rme is resampled to 2×2 and the output is 2×2×4. -/
theorem resolution_reconciliation_rule_witness :
    (reconcile trivK alb22 rme11c3).2.2.2
      = ResizeAction.resizedRme (alb22.height, alb22.width) ∧
    (reconcile trivK alb22 rme11c3).1 = alb22 ∧
    (reconcile trivK alb22 rme11c3).2.1
      = resize trivK rme11c3 (alb22.height, alb22.width) ∧
    (3 ≤ alb22.channels → 3 ≤ rme11c3.channels →
      (composeEmis trivK alb22 rme11c3).map shapeOf
        = some (alb22.height, alb22.width, 4)) :=
  (resolution_reconciliation_rule trivK alb22 rme11c3).2.1 (by decide)

/-- C3 counterexample: a 1×1 4-channel albedo and a 1×1 3-channel rme
share the identical height×width, yet the code resamples the albedo,
because the full numpy shapes (channel counts included) differ. -/
theorem resolution_reconciliation_counterexample :
    alb11c4.height = rme11c3.height ∧ alb11c4.width = rme11c3.width ∧
    (reconcile trivK alb11c4 rme11c3).2.2.2
      = ResizeAction.resizedAlbedo (1, 1) ∧
    (reconcile trivK alb11c4 rme11c3).2.2.2 ≠ ResizeAction.noResize := by
  have hshape : shapeOf alb11c4 ≠ shapeOf rme11c3 := by decide
  have hng : ¬ alb11c4.height * alb11c4.width
      > rme11c3.height * rme11c3.width := by decide
  have hrec : reconcile trivK alb11c4 rme11c3
      = (resize trivK alb11c4 (rme11c3.height, rme11c3.width), rme11c3,
        (rme11c3.height, rme11c3.width),
        ResizeAction.resizedAlbedo (rme11c3.height, rme11c3.width)) := by
    unfold reconcile
    rw [if_neg hshape, if_neg hng]
  refine ⟨rfl, rfl, by rw [hrec]; rfl, by rw [hrec]; decide⟩

/-- C5: whatever the bias and multiplier parameters, every channel value
of the packed ORM image lies in [0,1]; and for inputs with values in
[0,1], every channel value of the emission image about to be stored
(composed, optionally normalized, alpha set to 1) lies in [0,1] as well. -/
theorem outputs_in_unit_interval (K : Kernel) (sq : ℚ → ℚ)
    (rb rm mb mm : ℚ) (normFlag : Bool) (albedo rme : Img ℚ)
    (hA : InUnit albedo) :
    (∀ orm, pack rme rb rm mb mm = some orm →
      ∀ y x c : ℕ, 0 ≤ orm.data y x c ∧ orm.data y x c ≤ 1) ∧
    (∀ e, composeEmis K albedo rme = some e →
      ∀ y x c : ℕ, y < e.height → x < e.width →
        0 ≤ (setAlphaOne (if normFlag then normalizePass sq e else e)).data y x c ∧
        (setAlphaOne (if normFlag then normalizePass sq e else e)).data y x c ≤ 1) := by
  have hif4 : ∀ (a b : ℚ) (c : ℕ), (0 ≤ a ∧ a ≤ 1) → (0 ≤ b ∧ b ≤ 1) →
      0 ≤ (if c = 0 then (1:ℚ) else if c = 1 then a else if c = 2 then b
        else if c = 3 then 1 else 0) ∧
      (if c = 0 then (1:ℚ) else if c = 1 then a else if c = 2 then b
        else if c = 3 then 1 else 0) ≤ 1 := by
    intro a b c ha hb
    split_ifs
    · exact ⟨zero_le_one, le_refl 1⟩
    · exact ha
    · exact hb
    · exact ⟨zero_le_one, le_refl 1⟩
    · exact ⟨le_refl 0, zero_le_one⟩
  constructor
  · intro orm h y x c
    unfold pack at h
    split at h
    · exact absurd h (by simp)
    · rw [Option.some_inj] at h
      subst h
      exact hif4 _ _ c ⟨clip01_nonneg _, clip01_le_one _⟩
        ⟨clip01_nonneg _, clip01_le_one _⟩
  · intro e h y x c hy hx
    have hE : ∀ y2 < e.height, ∀ x2 < e.width, ∀ c2 : ℕ,
        0 ≤ e.data y2 x2 c2 ∧ e.data y2 x2 c2 ≤ 1 := by
      unfold composeEmis at h
      split at h
      · exact absurd h (by simp)
      · rw [Option.some_inj] at h
        subst h
        intro y2 hy2 x2 hx2 c2
        have ha := reconcile_fst_inUnit K albedo rme hA y2 hy2 x2 hx2 c2
        by_cases h3 : c2 < 3
        · have : (⟨(reconcile K albedo rme).2.2.1.1, (reconcile K albedo rme).2.2.1.2, 4,
              fun y x c => if c < 3 then (reconcile K albedo rme).1.data y x c *
                clip01 ((reconcile K albedo rme).2.1.data y x 2) else 0⟩ : Img ℚ).data y2 x2 c2
              = (reconcile K albedo rme).1.data y2 x2 c2 *
                clip01 ((reconcile K albedo rme).2.1.data y2 x2 2) := by
            show (if c2 < 3 then _ else (0:ℚ)) = _
            rw [if_pos h3]
          rw [this]
          exact ⟨mul_nonneg ha.1 (clip01_nonneg _),
            mul_le_one₀ ha.2 (clip01_nonneg _) (clip01_le_one _)⟩
        · have : (⟨(reconcile K albedo rme).2.2.1.1, (reconcile K albedo rme).2.2.1.2, 4,
              fun y x c => if c < 3 then (reconcile K albedo rme).1.data y x c *
                clip01 ((reconcile K albedo rme).2.1.data y x 2) else 0⟩ : Img ℚ).data y2 x2 c2
              = 0 := by
            show (if c2 < 3 then _ else (0:ℚ)) = 0
            rw [if_neg h3]
          rw [this]
          exact ⟨le_refl 0, zero_le_one⟩
    by_cases h3 : c = 3
    · have : (setAlphaOne (if normFlag then normalizePass sq e else e)).data y x c = 1 := by
        unfold setAlphaOne
        show (if c = 3 then (1:ℚ) else _) = 1
        rw [if_pos h3]
      rw [this]
      exact ⟨zero_le_one, le_refl 1⟩
    · have : (setAlphaOne (if normFlag then normalizePass sq e else e)).data y x c
          = (if normFlag then normalizePass sq e else e).data y x c := by
        unfold setAlphaOne
        show (if c = 3 then (1:ℚ) else _) = _
        rw [if_neg h3]
      rw [this]
      cases normFlag with
      | false => exact hE y hy x hx c
      | true =>
          show 0 ≤ (normalizePass sq e).data y x c ∧ (normalizePass sq e).data y x c ≤ 1
          unfold normalizePass
          split
          · exact ⟨clip01_nonneg _, clip01_le_one _⟩
          · exact hE y hy x hx c

/-- C1 (amended): with the normalize flag set, when the maximum per-pixel
luminance m of the composed image is positive, the code multiplies every
channel by sqrt(m / 0.1) / m — not by sqrt(m / 0.1) — and then clamps to
[0,1]; consequently, when no clamping bites, the new maximum luminance is
sqrt(m / 0.1) itself (0.5, not 0.05, for a composed image of maximum
luminance 0.025); when the maximum luminance is not positive the composed
image is left unchanged. -/
theorem normalize_emission_behaviour (sq : ℚ → ℚ) (img : Img ℚ) :
    (¬ 0 < maxLum img → normalizePass sq img = img) ∧
    (0 < maxLum img → ∀ y x c : ℕ,
      (normalizePass sq img).data y x c
        = clip01 (img.data y x c * sq (maxLum img / (1/10)) / maxLum img)) ∧
    (0 < maxLum img → 0 ≤ sq (maxLum img / (1/10)) →
      (∀ y < img.height, ∀ x < img.width, ∀ c < 3,
        0 ≤ img.data y x c ∧
          img.data y x c * sq (maxLum img / (1/10)) / maxLum img ≤ 1) →
      maxLum (normalizePass sq img) = sq (maxLum img / (1/10))) := by
  refine ⟨?_, ?_, ?_⟩
  · intro hm
    unfold normalizePass
    rw [if_neg hm]
  · intro hm y x c
    unfold normalizePass
    rw [if_pos hm]
  · intro hm hs hb
    have him : normalizePass sq img = ⟨img.height, img.width, img.channels,
        fun y x c =>
          clip01 (img.data y x c * sq (maxLum img / (1/10)) / maxLum img)⟩ := by
      unfold normalizePass
      rw [if_pos hm]
    rw [him]
    have hk : 0 ≤ sq (maxLum img / (1/10)) / maxLum img := div_nonneg hs hm.le
    have hsm := maxLum_smul img
      ⟨img.height, img.width, img.channels, fun y x c =>
        clip01 (img.data y x c * sq (maxLum img / (1/10)) / maxLum img)⟩
      (sq (maxLum img / (1/10)) / maxLum img) hk rfl rfl ?_
    · rw [hsm, div_mul_cancel₀ _ (ne_of_gt hm)]
    · intro y hy x hx c hc
      obtain ⟨h0, h1⟩ := hb y hy x hx c hc
      show clip01 (img.data y x c * sq (maxLum img / (1/10)) / maxLum img)
          = sq (maxLum img / (1/10)) / maxLum img * img.data y x c
      rw [clip01_eq_self _ (by positivity) h1]
      ring

/-- Maximum luminance of the 1×1 composed image with RGB 0.025. -/
theorem maxLum_img40 : maxLum img40 = 1/40 := by
  norm_num [maxLum, pixLums, rowLums, luminance, img40, List.range_succ]

theorem maxLum_img40_pos : 0 < maxLum img40 := by
  rw [maxLum_img40]
  norm_num

theorem sqrtVals_img40_nonneg : 0 ≤ sqrtVals (maxLum img40 / (1/10)) := by
  rw [maxLum_img40]
  norm_num [sqrtVals]

theorem img40_scale_bounds : ∀ y < img40.height, ∀ x < img40.width, ∀ c < 3,
    0 ≤ img40.data y x c ∧
      img40.data y x c * sqrtVals (maxLum img40 / (1/10)) / maxLum img40 ≤ 1 := by
  intro y hy x hx c hc
  rw [maxLum_img40]
  show 0 ≤ (if c < 3 then (1:ℚ)/40 else 0) ∧
    (if c < 3 then (1:ℚ)/40 else 0) * sqrtVals ((1/40) / (1/10)) / (1/40) ≤ 1
  rw [if_pos hc]
  norm_num [sqrtVals]

/-- C1 witness: on the 1×1 composed image of maximum luminance 0.025, the
normalized maximum luminance equals sqrt(0.025 / 0.1). -/
theorem normalize_emission_behaviour_witness :
    0 < maxLum img40 ∧
    maxLum (normalizePass sqrtVals img40) = sqrtVals (maxLum img40 / (1/10)) :=
  ⟨maxLum_img40_pos,
    (normalize_emission_behaviour sqrtVals img40).2.2 maxLum_img40_pos
      sqrtVals_img40_nonneg img40_scale_bounds⟩

/-- C1 counterexample: the claim's stated scaling is not what the code
does. On the 1×1 composed image of maximum luminance 0.025, the code
leaves maximum luminance 0.5, not the claimed 0.05; and on a composed
image realizable from uint8 sources (white albedo, rme blue 0.4, maximum
luminance 0.4), the code yields channel value 1 where multiplying by
scale = sqrt(max / 0.1) as the claim states would yield 0.8. -/
theorem normalize_scale_counterexample :
    maxLum img40 = 1/40 ∧
    maxLum (normalizePass sqrtVals img40) = 1/2 ∧
    ((1:ℚ)/2 ≠ 1/20) ∧
    (composeEmis trivK albC1 rmeC1).map
      (fun e => (normalizePass sqrtVals e).data 0 0 0) = some 1 ∧
    (composeEmis trivK albC1 rmeC1).map
      (fun e => (normalizePassSpec sqrtVals e).data 0 0 0) = some (4/5) ∧
    ((1:ℚ) ≠ 4/5) := by
  have hn : normalizePass sqrtVals img40 = ⟨img40.height, img40.width, img40.channels,
      fun y x c =>
        clip01 (img40.data y x c * sqrtVals (maxLum img40 / (1/10)) / maxLum img40)⟩ := by
    unfold normalizePass
    rw [if_pos maxLum_img40_pos]
  have hsh : shapeOf albC1 = shapeOf rmeC1 := rfl
  have hrec : reconcile trivK albC1 rmeC1
      = (albC1, rmeC1, (1, 1), ResizeAction.noResize) := by
    unfold reconcile
    rw [if_pos hsh]
    rfl
  have hcomp : composeEmis trivK albC1 rmeC1 = some ⟨1, 1, 4, fun y x c =>
      if c < 3 then albC1.data y x c * clip01 (rmeC1.data y x 2) else 0⟩ := by
    unfold composeEmis
    rw [hrec, if_neg (by norm_num [albC1, rmeC1, imgConst])]
  have hml : maxLum (⟨1, 1, 4, fun y x c =>
      if c < 3 then albC1.data y x c * clip01 (rmeC1.data y x 2) else 0⟩ : Img ℚ) = 2/5 := by
    unfold maxLum pixLums rowLums
    norm_num [List.range_succ, luminance, albC1, rmeC1, imgConst, clip01,
      max_def, min_def]
  refine ⟨maxLum_img40, ?_, by norm_num, ?_, ?_, by norm_num⟩
  · rw [hn]
    unfold maxLum pixLums rowLums
    simp only [maxLum_img40]
    norm_num [List.range_succ, luminance, img40, sqrtVals, clip01, max_def, min_def]
  · rw [hcomp, Option.map_some']
    unfold normalizePass
    rw [if_pos (by rw [hml]; norm_num), hml]
    show some (clip01 ((if (0:ℕ) < 3 then albC1.data 0 0 0 * clip01 (rmeC1.data 0 0 2) else 0)
        * sqrtVals ((2/5) / (1/10)) / (2/5))) = some 1
    rw [if_pos (by norm_num : (0:ℕ) < 3)]
    norm_num [albC1, rmeC1, imgConst, sqrtVals, clip01, max_def, min_def]
  · rw [hcomp, Option.map_some']
    unfold normalizePassSpec
    rw [if_pos (by rw [hml]; norm_num), hml]
    show some (clip01 ((if (0:ℕ) < 3 then albC1.data 0 0 0 * clip01 (rmeC1.data 0 0 2) else 0)
        * sqrtVals ((2/5) / (1/10)))) = some (4/5)
    rw [if_pos (by norm_num : (0:ℕ) < 3)]
    norm_num [albC1, rmeC1, imgConst, sqrtVals, clip01, max_def, min_def]

/-- C5 witness: the bound at concrete inputs, with parameters (bias 1/2,
mult 2) that overflow the raw range. -/
theorem outputs_in_unit_interval_witness :
    (∀ orm, pack rmeC1 (1/2) 2 (1/2) 2 = some orm →
      ∀ y x c : ℕ, 0 ≤ orm.data y x c ∧ orm.data y x c ≤ 1) ∧
    (∀ e, composeEmis trivK albC1 rmeC1 = some e →
      ∀ y x c : ℕ, y < e.height → x < e.width →
        0 ≤ (setAlphaOne (if false then normalizePass sqrtVals e else e)).data y x c ∧
        (setAlphaOne (if false then normalizePass sqrtVals e else e)).data y x c ≤ 1) :=
  outputs_in_unit_interval trivK sqrtVals (1/2) 2 (1/2) 2 false albC1 rmeC1
    (fun _ _ _ _ _ => ⟨zero_le_one, le_refl 1⟩)

theorem targetCheck_true (fs : FS) (p : String) :
    targetCheck fs p true
      = (true, if fsExists fs p = true then [FsEvent.remove p] else [], []) := by
  unfold targetCheck
  cases hb : fsExists fs p <;> simp [hb]

/-- When both outputs are marked skipped, convert returns early: only the
target-check events happen, and no error is raised (the inputs are never
loaded). -/
theorem convert_early (K : Kernel) (sq : ℚ → ℚ) (P : ConvParams)
    (fs : FS) (pA pR pO pE : String)
    (hOw : P.overwriteORM = false) (hO : fsExists fs pO = true)
    (hE : (targetCheck fs pE P.overwriteEmis).1 = false
      ∨ fsExists fs pA = false) :
    convert K sq P fs pA pR pO pE
      = ⟨(targetCheck fs pE P.overwriteEmis).2.1,
        [Msg.skipExists pO] ++ (targetCheck fs pE P.overwriteEmis).2.2
          ++ (if fsExists fs pA = false then [Msg.noAlbedo] else []),
        none⟩ := by
  rcases hce : targetCheck fs pE P.overwriteEmis with ⟨ceOk, ceEv, ceMsg⟩
  rw [hce] at hE
  simp only [convert, hOw]
  rw [targetCheck_skip fs pO hO, hce]
  cases hb : fsExists fs pA with
  | false => simp [hb]
  | true =>
      rcases hE with hE | hE
      · have hceOk : ceOk = false := hE
        subst hceOk
        simp [hb]
      · rw [hE] at hb
        cases hb

/-- C7: when the ORM output is skipped because its target exists with
overwrite disabled, and the emission output is skipped too (its target
exists with overwrite disabled, or the albedo path is missing), convert
returns without error and performs no filesystem writes; it never reaches
the input loads, so in particular no error is raised even when the rme
input file does not exist. -/
theorem convert_skip_both_noop (K : Kernel) (sq : ℚ → ℚ) (P : ConvParams)
    (fs : FS) (pA pR pO pE : String)
    (hO : fsExists fs pO = true) (hOw : P.overwriteORM = false)
    (hE : (fsExists fs pE = true ∧ P.overwriteEmis = false)
      ∨ fsExists fs pA = false) :
    (convert K sq P fs pA pR pO pE).error = none ∧
    ∀ p img, FsEvent.write p img ∉ (convert K sq P fs pA pR pO pE).events := by
  have hE2 : (targetCheck fs pE P.overwriteEmis).1 = false
      ∨ fsExists fs pA = false := by
    rcases hE with ⟨hEe, hEw⟩ | hA
    · left
      rw [hEw, targetCheck_skip fs pE hEe]
    · exact Or.inr hA
  rw [convert_early K sq P fs pA pR pO pE hOw hO hE2]
  refine ⟨rfl, ?_⟩
  intro p img hmem
  exact targetCheck_no_write fs pE P.overwriteEmis p img hmem

/-- C7 witness: a filesystem holding only the existing ORM target — the
albedo and even the rme input are absent — with the shipped configuration. -/
theorem convert_skip_both_noop_witness :
    (convert trivK sqrtVals pDefault fsOrmOnly "t.png" "t_rme.png" "t_orm.png"
      "t_e.png").error = none ∧
    ∀ p img, FsEvent.write p img ∉ (convert trivK sqrtVals pDefault fsOrmOnly
      "t.png" "t_rme.png" "t_orm.png" "t_e.png").events :=
  convert_skip_both_noop trivK sqrtVals pDefault fsOrmOnly "t.png" "t_rme.png"
    "t_orm.png" "t_e.png" (by decide) rfl (Or.inr (by decide))

/-- C6: with a readable rme input but a missing albedo path, convert
raises no error, prints the no-albedo warning, writes the ORM output
(given that its target is absent or overwrite is on) and writes no
emission output whatever the emission overwrite policy; the albedo is
replaced by the zero-filled 4-channel placeholder of the rme's height and
width. -/
theorem convert_missing_albedo (K : Kernel) (sq : ℚ → ℚ) (P : ConvParams)
    (fs : FS) (pA pR pO pE : String) (rmeU8 : Img ℕ)
    (hne : pO ≠ pE)
    (hR : fs pR = some rmeU8) (hA : fs pA = none)
    (hch : 2 ≤ rmeU8.channels)
    (hO : fsExists fs pO = false ∨ P.overwriteORM = true) :
    (convert K sq P fs pA pR pO pE).error = none ∧
    Msg.noAlbedo ∈ (convert K sq P fs pA pR pO pE).messages ∧
    (∃ img, FsEvent.write pO img ∈ (convert K sq P fs pA pR pO pE).events) ∧
    (∀ img, FsEvent.write pE img ∉ (convert K sq P fs pA pR pO pE).events) ∧
    loadAlbedo fs pA false rmeU8 = zeroImgU8 rmeU8.height rmeU8.width := by
  have hAe : fsExists fs pA = false := by
    unfold fsExists
    rw [hA]
    rfl
  have hlt : ¬ (normImg rmeU8).channels < 2 := not_lt.mpr hch
  obtain ⟨orm, hpack⟩ : ∃ orm, pack (normImg rmeU8) P.roughnessBias
      P.roughnessMult P.metallicBias P.metallicMult = some orm :=
    ⟨_, by unfold pack; rw [if_neg hlt]⟩
  have hco : (targetCheck fs pO P.overwriteORM).1 = true := by
    rcases hO with hO | hO
    · rw [targetCheck_absent fs pO _ hO]
    · rw [hO, targetCheck_true fs pO]
  have hres : convert K sq P fs pA pR pO pE
      = ⟨((targetCheck fs pO P.overwriteORM).2.1
            ++ (targetCheck fs pE P.overwriteEmis).2.1)
          ++ [FsEvent.write pO (toU8Img orm)],
        ((targetCheck fs pO P.overwriteORM).2.2
            ++ (targetCheck fs pE P.overwriteEmis).2.2) ++ [Msg.noAlbedo],
        none⟩ := by
    simp only [convert, hAe, hR, hco, hpack]
    simp
  rw [hres]
  refine ⟨rfl, ?_, ?_, ?_, rfl⟩
  · simp
  · exact ⟨toU8Img orm, by simp⟩
  · intro img hmem
    rcases List.mem_append.mp hmem with h | h
    · rcases List.mem_append.mp h with h1 | h2
      · exact targetCheck_no_write fs pO P.overwriteORM pE img h1
      · exact targetCheck_no_write fs pE P.overwriteEmis pE img h2
    · have := List.mem_singleton.mp h
      have hpe : pE = pO := by
        injection this
      exact hne hpe.symm

/-- C6 witness: the shipped configuration on a filesystem holding only
the rme input. -/
theorem convert_missing_albedo_witness :
    (convert trivK sqrtVals pDefault fsMissingAlb "t.png" "t_rme.png"
      "t_orm.png" "t_e.png").error = none ∧
    Msg.noAlbedo ∈ (convert trivK sqrtVals pDefault fsMissingAlb "t.png"
      "t_rme.png" "t_orm.png" "t_e.png").messages ∧
    (∃ img, FsEvent.write "t_orm.png" img ∈ (convert trivK sqrtVals pDefault
      fsMissingAlb "t.png" "t_rme.png" "t_orm.png" "t_e.png").events) ∧
    (∀ img, FsEvent.write "t_e.png" img ∉ (convert trivK sqrtVals pDefault
      fsMissingAlb "t.png" "t_rme.png" "t_orm.png" "t_e.png").events) ∧
    loadAlbedo fsMissingAlb "t.png" false rmeU8w
      = zeroImgU8 rmeU8w.height rmeU8w.width :=
  convert_missing_albedo trivK sqrtVals pDefault fsMissingAlb "t.png"
    "t_rme.png" "t_orm.png" "t_e.png" rmeU8w (by decide) rfl
    rfl (by decide) (Or.inl (by decide))

/-- C8: if the ORM target exists and the overwrite flag is off, a second
convert call on the same paths neither deletes nor rewrites the ORM file:
no event touches its path and replaying the call's events leaves the
stored file identical; if instead the flag is on (and the rme input is
loadable), the call's first action deletes the ORM target and a new ORM
write to the same path follows. -/
theorem convert_orm_overwrite_policy (K : Kernel) (sq : ℚ → ℚ)
    (P : ConvParams) (fs : FS) (pA pR pO pE : String)
    (hne : pO ≠ pE) (hO : fsExists fs pO = true) :
    (P.overwriteORM = false →
      (∀ e ∈ (convert K sq P fs pA pR pO pE).events, eventPath e ≠ pO) ∧
      applyEvents fs (convert K sq P fs pA pR pO pE).events pO = fs pO) ∧
    (P.overwriteORM = true → ∀ rmeU8, fs pR = some rmeU8 →
      2 ≤ rmeU8.channels →
      (convert K sq P fs pA pR pO pE).events.head?
        = some (FsEvent.remove pO) ∧
      ∃ img, FsEvent.write pO img ∈ (convert K sq P fs pA pR pO pE).events) := by
  constructor
  · intro hOw
    have hev : ∀ e ∈ (convert K sq P fs pA pR pO pE).events, eventPath e ≠ pO := by
      rcases hce : targetCheck fs pE P.overwriteEmis with ⟨ceOk, ceEv, ceMsg⟩
      have hceP : ∀ e ∈ ceEv, eventPath e = pE := by
        intro e he
        exact targetCheck_paths fs pE P.overwriteEmis e (by rw [hce]; exact he)
      have hpe : ∀ e ∈ ceEv, eventPath e ≠ pO := by
        intro e he
        rw [hceP e he]
        exact Ne.symm hne
      intro e he
      simp only [convert, hOw] at he
      rw [targetCheck_skip fs pO hO, hce] at he
      simp at he
      split at he
      · exact hpe e he
      · split at he
        · exact hpe e he
        · split at he
          · split at he
            · exact hpe e he
            · rcases List.mem_append.mp he with h | h
              · exact hpe e h
              · rcases List.mem_singleton.mp h with rfl
                exact Ne.symm hne
          · exact hpe e he
    exact ⟨hev, applyEvents_untouched _ fs pO hev⟩
  · intro hOw rmeU8 hR hch
    have hlt : ¬ (normImg rmeU8).channels < 2 := not_lt.mpr hch
    obtain ⟨orm, hpack⟩ : ∃ orm, pack (normImg rmeU8) P.roughnessBias
        P.roughnessMult P.metallicBias P.metallicMult = some orm :=
      ⟨_, by unfold pack; rw [if_neg hlt]⟩
    rcases hce : targetCheck fs pE P.overwriteEmis with ⟨ceOk, ceEv, ceMsg⟩
    have hres : ∃ l, (convert K sq P fs pA pR pO pE).events
        = FsEvent.remove pO :: l ∧ FsEvent.write pO (toU8Img orm) ∈ l := by
      simp only [convert, hOw, hR, hpack]
      rw [targetCheck_overwrite fs pO hO, hce]
      simp
      split
      · split
        · exact ⟨_, rfl, by simp⟩
        · exact ⟨_, rfl, by simp⟩
      · exact ⟨_, rfl, by simp⟩
    obtain ⟨l, hl, hw⟩ := hres
    refine ⟨by rw [hl]; rfl, toU8Img orm, by rw [hl]; exact List.mem_cons_of_mem _ hw⟩

/-- C8 witness: on a filesystem already holding the ORM result and the
rme input, the shipped configuration (overwrite off) leaves the stored ORM
file untouched, while the overwrite-on configuration first removes the
target and then writes the new ORM result. -/
theorem convert_orm_overwrite_policy_witness :
    ((∀ e ∈ (convert trivK sqrtVals pDefault fsOrmRme "t.png" "t_rme.png"
        "t_orm.png" "t_e.png").events, eventPath e ≠ "t_orm.png") ∧
      applyEvents fsOrmRme (convert trivK sqrtVals pDefault fsOrmRme "t.png"
        "t_rme.png" "t_orm.png" "t_e.png").events "t_orm.png"
        = fsOrmRme "t_orm.png") ∧
    ((convert trivK sqrtVals pOverwrite fsOrmRme "t.png" "t_rme.png"
        "t_orm.png" "t_e.png").events.head?
      = some (FsEvent.remove "t_orm.png") ∧
      ∃ img, FsEvent.write "t_orm.png" img ∈ (convert trivK sqrtVals
        pOverwrite fsOrmRme "t.png" "t_rme.png" "t_orm.png" "t_e.png").events) :=
  ⟨(convert_orm_overwrite_policy trivK sqrtVals pDefault fsOrmRme "t.png"
      "t_rme.png" "t_orm.png" "t_e.png" (by decide) (by decide)).1 rfl,
    (convert_orm_overwrite_policy trivK sqrtVals pOverwrite fsOrmRme "t.png"
      "t_rme.png" "t_orm.png" "t_e.png" (by decide) (by decide)).2 rfl
      rmeU8w rfl (by decide)⟩

end ConvertFromRME
